import Mathlib

/-!
Verification of the twitter sentiment-analysis pipeline.

Shallow embedding of the Python sources (`utils.py`, `sentiment.py`,
`twitter_client.py`, `domain.py`) over Lean data types:

* text is a list of Unicode codepoints (`Str := List Nat`); the regex
  character classes `\s`, `\w` and `str.lower`/`str.upper` are modelled on
  their ASCII behaviour, which is exact for the patterns the code uses;
* floats (`compound` scores, confidences) are modelled as `ℚ`;
* the Twitter/X upstream is modelled as an oracle from pagination token and
  per-call limit to a response, and fallible calls return `Except`.
-/

/-- Codepoint strings: the model of Python `str`. -/
abbrev Str := List Nat

/-- Embed a Lean string literal as a codepoint list. -/
def ofStr (s : String) : Str := s.data.map Char.toNat

/-- Python regex `\s` on ASCII: space, tab, newline, carriage return,
vertical tab, form feed.  Also the set stripped by `str.strip()`. -/
def isSpaceCh (n : Nat) : Bool :=
  n == 32 || n == 9 || n == 10 || n == 13 || n == 11 || n == 12

/-- Python regex `\w` on ASCII: `[0-9A-Za-z_]`. -/
def isWordCh (n : Nat) : Bool :=
  (48 ≤ n && n ≤ 57) || (65 ≤ n && n ≤ 90) || (97 ≤ n && n ≤ 122) || n == 95

/-- `str.lower` on one ASCII codepoint. -/
def lowerCh (n : Nat) : Nat := if 65 ≤ n && n ≤ 90 then n + 32 else n

/-- `str.upper` on one ASCII codepoint. -/
def upperCh (n : Nat) : Nat := if 97 ≤ n && n ≤ 122 then n - 32 else n

/-- ASCII letter (Python "cased" character, ASCII fragment). -/
def isAlphaCh (n : Nat) : Bool := (65 ≤ n && n ≤ 90) || (97 ≤ n && n ≤ 122)

/-- `str.lower` on a string. -/
def lowerStr (s : Str) : Str := s.map lowerCh

/-! ## utils.py — `clean_text`

`clean_text` applies, in order: `URL_RE = https?://\S+` → `" "`,
`MENTION_RE = @\w+` → `" "`, `HASHTAG_RE = #` → `""`, the three entity
substitutions `&amp;`/`&lt;`/`&gt;`, `MULTISPACE_RE = \s+` → `" "`, then
`.strip().lower()`.  (`text = text or ""` maps a `None` input to the empty
string; inputs here are already strings.)  Each regex substitution is
implemented as the standard leftmost, non-overlapping, greedy scan. -/

/-- Head of the remaining input exists and is not whitespace (`\S`). -/
def headNonspace : Str → Bool
  | [] => false
  | c :: _ => !isSpaceCh c

/-- Does a match of `https?://\S+` start at the head of `l`?
The literal alternatives are `http://` (7 chars) and `https://` (8 chars),
each of which must be followed by at least one non-whitespace character. -/
def urlStart (l : Str) : Bool :=
  ((ofStr "http://").isPrefixOf l && headNonspace (l.drop 7)) ||
  ((ofStr "https://").isPrefixOf l && headNonspace (l.drop 8))

/-- Scanner for `URL_RE.sub(" ", text)`.  `inRun` records that we are inside
a match (the greedy `\S+` consumes the whole non-whitespace run that starts
at the scheme, since the scheme itself is non-whitespace). -/
def urlGo : Bool → Str → Str
  | _, [] => []
  | inRun, c :: cs =>
    if inRun && !isSpaceCh c then urlGo true cs
    else if urlStart (c :: cs) then 32 :: urlGo true cs
    else c :: urlGo false cs

/-- `URL_RE.sub(" ", text)`. -/
def urlSub (l : Str) : Str := urlGo false l

/-- Head of the remaining input exists and is a `\w` character. -/
def headWord : Str → Bool
  | [] => false
  | c :: _ => isWordCh c

/-- Scanner for `MENTION_RE.sub(" ", text)`: `@` followed by one or more
word characters is replaced by a single space; `inWord` records that we are
consuming the greedy `\w+` of the current match. -/
def mentionGo : Bool → Str → Str
  | _, [] => []
  | inWord, c :: cs =>
    if inWord && isWordCh c then mentionGo true cs
    else if c == 64 && headWord cs then 32 :: mentionGo true cs
    else c :: mentionGo false cs

/-- `MENTION_RE.sub(" ", text)`. -/
def mentionSub (l : Str) : Str := mentionGo false l

/-- `HASHTAG_RE.sub("", text)`: remove every `#` (codepoint 35). -/
def hashStrip (l : Str) : Str := l.filter (fun c => !(c == 35))

/-- `re.sub(pat, r, text)` for a literal pattern `pat` and single-character
replacement `r`: leftmost non-overlapping replacement.  After a match the
scan we skip the remaining `pat.length - 1` matched characters. -/
def replGo (pat : Str) (r : Nat) : Nat → Str → Str
  | _, [] => []
  | k + 1, _ :: cs => replGo pat r k cs
  | 0, c :: cs =>
    if pat.isPrefixOf (c :: cs) then r :: replGo pat r (pat.length - 1) cs
    else c :: replGo pat r 0 cs

/-- `re.sub(r"&amp;", "&", text)`. -/
def ampSub (l : Str) : Str := replGo (ofStr "&amp;") 38 0 l

/-- `re.sub(r"&lt;", "<", text)`. -/
def ltSub (l : Str) : Str := replGo (ofStr "&lt;") 60 0 l

/-- `re.sub(r"&gt;", ">", text)`. -/
def gtSub (l : Str) : Str := replGo (ofStr "&gt;") 62 0 l

/-- `MULTISPACE_RE.sub(" ", text)`: every maximal run of whitespace becomes
a single space (32). -/
def spaceCollapse : Str → Str
  | [] => []
  | [c] => [if isSpaceCh c then 32 else c]
  | a :: b :: rest =>
    if isSpaceCh a && isSpaceCh b then spaceCollapse (b :: rest)
    else (if isSpaceCh a then 32 else a) :: spaceCollapse (b :: rest)

/-- `str.strip()`: drop whitespace from both ends. -/
def stripStr (l : Str) : Str :=
  ((l.dropWhile isSpaceCh).reverse.dropWhile isSpaceCh).reverse

/-- `utils.clean_text`. -/
def clean_text (t : Str) : Str :=
  lowerStr (stripStr (spaceCollapse
    (gtSub (ltSub (ampSub (hashStrip (mentionSub (urlSub t))))))))

/-! ## sentiment.py — `score_to_label` -/

/-- `sentiment.score_to_label`; the float `compound` is modelled as `ℚ`. -/
def score_to_label (compound : ℚ) : Str :=
  if compound ≥ 5 / 100 then ofStr "Positive"
  else if compound ≤ -(5 / 100) then ofStr "Negative"
  else ofStr "Neutral"

/-! ## twitter_client.py

The Tweepy client is modelled as an oracle (`Server`) mapping the pagination
token and the per-call `max_results` limit to a response.  Exceptions raised
by the upstream call are modelled by `Except`: `ApiError.tooManyRequests`
is tweepy's `TooManyRequests` (carrying the response headers, if any), and
`ApiError.other` is any other `TweepyException`. -/

/-- HTTP response headers, as the association list behind `resp.headers`
(`dict.get` is association-list lookup). -/
abbrev Headers := List (Str × Str)

/-- `headers.get(key)`. -/
def hget (hs : Headers) (k : Str) : Option Str :=
  (hs.find? (fun p => p.1 == k)).map (·.2)

/-- Python `a or b` for two optional strings: `a` unless it is falsy
(`None` or the empty string). -/
def pyOrStr (a b : Option Str) : Option Str :=
  match a with
  | some s => if s.isEmpty then b else some s
  | none => b

/-- Python `str.isdigit` (ASCII): nonempty and all decimal digits. -/
def isdigitStr (s : Str) : Bool :=
  !s.isEmpty && s.all (fun c => 48 ≤ c && c ≤ 57)

/-- `int(s)` for a decimal digit string. -/
def digitsToNat (s : Str) : Nat := s.foldl (fun acc c => 10 * acc + (c - 48)) 0

/-- `twitter_client._retry_after_from_response`, given the exception's
response headers and the current epoch time `now` ( `int(time())` ).
Prefers a numeric `retry-after` header; otherwise uses
`max(0, reset_epoch - now)` from a numeric `x-rate-limit-reset` header;
otherwise `None`. -/
def retry_after_from_headers (hs : Headers) (now : Int) : Option Int :=
  let retry_after := pyOrStr (hget hs (ofStr "retry-after")) (hget hs (ofStr "Retry-After"))
  let resetStep : Option Int :=
    let reset := pyOrStr (hget hs (ofStr "x-rate-limit-reset")) (hget hs (ofStr "X-Rate-Limit-Reset"))
    match reset with
    | some s => if isdigitStr s then some (max 0 ((digitsToNat s : Int) - now)) else none
    | none => none
  match retry_after with
  | some s => if isdigitStr s then some (digitsToNat s : Int) else resetStep
  | none => resetStep

/-- `_retry_after_from_response` on the whole exception: `None` when the
exception has no response or no headers attached. -/
def retry_after_from_response (resp : Option Headers) (now : Int) : Option Int :=
  match resp with
  | none => none
  | some hs => retry_after_from_headers hs now

/-- The exceptions an upstream call can raise. -/
inductive ApiError where
  | tooManyRequests (response : Option Headers)
  | other
  deriving DecidableEq

/-- Upstream outcome of `client.get_user(username=...)`:
`ok none` models a response whose `.data` is `None` (user not found). -/
inductive UserFetch where
  | ok (user : Option Nat)
  | raises (e : ApiError)

/-- Result of `TwitterClient.get_user_by_username`: either the user,
a raised `RateLimitError` (with its `retry_after_seconds`), or a raised
generic `RuntimeError`. -/
inductive UserResult where
  | ok (user : Option Nat)
  | rateLimitError (retry_after_seconds : Option Int)
  | runtimeError
  deriving DecidableEq

/-- `TwitterClient.get_user_by_username`: translates `TooManyRequests` into
`RateLimitError` (with the extracted hint) and any other `TweepyException`
into `RuntimeError`. -/
def get_user_by_username (upstream : UserFetch) (now : Int) : UserResult :=
  match upstream with
  | .ok u => .ok u
  | .raises (.tooManyRequests resp) => .rateLimitError (retry_after_from_response resp now)
  | .raises .other => .runtimeError

/-- One `get_users_tweets` response: `data` is `none` when the payload has
no `data` field (`resp.data is None`), and `next_token` is
`resp.meta.get("next_token")`. Tweets are opaque ids. -/
structure Page where
  data : Option (List Nat)
  next_token : Option Nat
  deriving DecidableEq

/-- The upstream `get_users_tweets` endpoint: pagination token and per-call
`max_results` limit determine the response (or the raised exception). -/
abbrev Server := Option Nat → Int → Except ApiError Page

/-- The pagination loop of `TwitterClient.get_user_tweets`.

State: remaining fuel (the finite interaction budget: the loop stops when
the finite supply of upstream responses is exhausted), current pagination
token, `remaining` (an `int` in Python, so modelled as `ℤ`), the
accumulator `collected`, and — as instrumentation only — the number of
upstream requests made so far.  An exception raised by the upstream call
propagates unhandled (there is no `try`/`except` in `get_user_tweets`). -/
def get_user_tweets_go (server : Server) :
    Nat → Option Nat → Int → List Nat → Nat → Except ApiError (List Nat × Nat)
  | 0, _, _, acc, reqs => .ok (acc, reqs)
  | fuel + 1, tok, remaining, acc, reqs =>
    if remaining ≤ 0 then .ok (acc, reqs)
    else
      let limit := min 100 remaining
      match server tok limit with
      | .error e => .error e
      | .ok page =>
        match page.data with
        | none => .ok (acc, reqs + 1)
        | some items =>
          let acc' := acc ++ items
          let remaining' := remaining - items.length
          match page.next_token with
          | none => .ok (acc', reqs + 1)
          | some t => get_user_tweets_go server fuel (some t) remaining' acc' (reqs + 1)

/-- `TwitterClient.get_user_tweets`: `remaining = max(1, max_results)`,
first call with no pagination token. -/
def get_user_tweets (server : Server) (fuel : Nat) (max_results : Int) :
    Except ApiError (List Nat × Nat) :=
  get_user_tweets_go server fuel none (max 1 max_results) [] 0

/-! ## domain.py -/

/-- `domain._normalize_label`: `re.sub(r"\s+", " ", label.strip()).title()`.
The title-casing scanner mirrors Python `str.title()` on ASCII: a cased
character is uppercased when the previous character is not cased, and
lowercased otherwise. -/
def titleGo : Bool → Str → Str
  | _, [] => []
  | prevCased, c :: cs =>
    (if isAlphaCh c then (if prevCased then lowerCh c else upperCh c) else c) ::
      titleGo (isAlphaCh c) cs

/-- `str.title()`. -/
def titleStr (s : Str) : Str := titleGo false s

/-- `domain._normalize_label`. -/
def normalize_label (label : Str) : Str := titleStr (spaceCollapse (stripStr label))

/-- `domain.DEFAULT_DOMAIN_LABELS` (the built-in fallback). -/
def DEFAULT_DOMAIN_LABELS : List Str :=
  [ofStr "Politics", ofStr "Sports", ofStr "Education", ofStr "Technology",
   ofStr "Entertainment", ofStr "Business", ofStr "Health", ofStr "Science",
   ofStr "Travel", ofStr "Environment"]

/-- `domain.KEYWORD_LEXICON` (the built-in fallback), as an insertion-ordered
association list (the model of a Python `dict`). -/
def KEYWORD_LEXICON : List (Str × List Str) :=
  [ (ofStr "Politics",
     [ofStr "election", ofStr "policy", ofStr "government", ofStr "senate",
      ofStr "parliament", ofStr "minister", ofStr "president", ofStr "vote",
      ofStr "campaign", ofStr "politics", ofStr "congress", ofStr "diplomacy",
      ofStr "democracy"]),
    (ofStr "Sports",
     [ofStr "match", ofStr "game", ofStr "tournament", ofStr "league",
      ofStr "goal", ofStr "score", ofStr "coach", ofStr "athlete",
      ofStr "football", ofStr "soccer", ofStr "nba", ofStr "cricket",
      ofStr "tennis", ofStr "olympics"]),
    (ofStr "Education",
     [ofStr "school", ofStr "college", ofStr "university", ofStr "curriculum",
      ofStr "exam", ofStr "teacher", ofStr "student", ofStr "degree",
      ofStr "research", ofStr "scholarship", ofStr "classroom"]),
    (ofStr "Technology",
     [ofStr "ai", ofStr "artificial intelligence", ofStr "software",
      ofStr "hardware", ofStr "app", ofStr "coding", ofStr "programming",
      ofStr "cloud", ofStr "saas", ofStr "api", ofStr "data", ofStr "ml",
      ofStr "blockchain", ofStr "crypto", ofStr "startup"]),
    (ofStr "Entertainment",
     [ofStr "movie", ofStr "film", ofStr "music", ofStr "album", ofStr "song",
      ofStr "celebrity", ofStr "tv", ofStr "series", ofStr "hollywood",
      ofStr "bollywood", ofStr "concert", ofStr "festival"]),
    (ofStr "Business",
     [ofStr "market", ofStr "stock", ofStr "revenue", ofStr "profit",
      ofStr "merger", ofStr "acquisition", ofStr "startup", ofStr "funding",
      ofStr "economy", ofStr "inflation", ofStr "trade", ofStr "sales",
      ofStr "earnings"]),
    (ofStr "Health",
     [ofStr "hospital", ofStr "doctor", ofStr "nurse", ofStr "vaccine",
      ofStr "covid", ofStr "disease", ofStr "medicine", ofStr "mental health",
      ofStr "fitness", ofStr "diet", ofStr "wellness"]),
    (ofStr "Science",
     [ofStr "research", ofStr "study", ofStr "experiment", ofStr "theory",
      ofStr "physics", ofStr "chemistry", ofStr "biology", ofStr "astronomy",
      ofStr "space", ofStr "quantum", ofStr "lab"]),
    (ofStr "Travel",
     [ofStr "flight", ofStr "airport", ofStr "hotel", ofStr "tour",
      ofStr "trip", ofStr "journey", ofStr "visa", ofStr "tourism",
      ofStr "itinerary"]),
    (ofStr "Environment",
     [ofStr "climate", ofStr "emissions", ofStr "sustainability",
      ofStr "wildlife", ofStr "conservation", ofStr "pollution",
      ofStr "renewable", ofStr "recycling", ofStr "ecosystem"]) ]

/-- `KEYWORD_LEXICON.get(lbl, [])`. -/
def lexget (lbl : Str) : List Str :=
  ((KEYWORD_LEXICON.find? (fun p => p.1 == lbl)).map (·.2)).getD []

/-- Python `kw in text`: substring test. -/
def isSubstr (p : Str) (l : Str) : Bool :=
  p.isPrefixOf l ||
    match l with
    | [] => false
    | _ :: t => isSubstr p t

/-- `domain._keyword_score`: number of keywords occurring as substrings of
the lowercased text (`sum(1 for kw in keywords if kw in text_lc)`). -/
def keyword_score (text : Str) (keywords : List Str) : Nat :=
  let text_lc := lowerStr text
  keywords.countP (fun kw => isSubstr kw text_lc)

/-- The candidate labels used by `classify_domains_keyword`: the supplied
list unless it is falsy (`None` or empty), else the defaults; each label
normalized.  (A `None` argument and an empty list behave identically, so the
argument is modelled as a plain list.) -/
def labelsOf (candidate_labels : List Str) : List Str :=
  (if candidate_labels.isEmpty then DEFAULT_DOMAIN_LABELS else candidate_labels).map
    normalize_label

/-- The per-text classifier `pick_label` inside
`domain.classify_domains_keyword`.  `scores` is the Python dict
`{lbl: score(lbl) for lbl in labels}` in insertion order (duplicate labels
collapse to one dict key with the same score, so keeping the duplicates in
the list leaves the chosen label and score unchanged);
`max(scores.items(), key=...)` returns the first item with maximal score.
The `[]` branch is unreachable from `classify_one` (`labels` is never empty
there); in Python `max(())` would raise `ValueError`. -/
def pick_label (labels : List Str) (text : Str) : Str × ℚ :=
  let scores : List (Str × Nat) := labels.map (fun lbl => (lbl, keyword_score text (lexget lbl)))
  match scores with
  | [] => (ofStr "Other", 0)
  | s0 :: rest =>
    let best := rest.foldl (fun b p => if b.2 < p.2 then p else b) s0
    if best.2 = 0 then (ofStr "Other", 0) else (best.1, (best.2 : ℚ))

/-- `domain.classify_domains_keyword` restricted to a single text (the
DataFrame version applies this to each row's `text_clean`). -/
def classify_one (candidate_labels : List Str) (text : Str) : Str × ℚ :=
  pick_label (labelsOf candidate_labels) text

/-- The two strategies `domain.analyze_domains` can dispatch to. -/
inductive DomainMethod where
  | keyword
  | zeroShot
  deriving DecidableEq

/-- The strategy-selection logic of `domain.analyze_domains`:
`method_norm = (method or "keyword").strip().lower()`, zero-shot iff
`method_norm == "zero-shot"`, anything else silently falls back to the
keyword strategy. -/
def analyze_domains_method (method : Option Str) : DomainMethod :=
  let base : Str :=
    match method with
    | none => ofStr "keyword"
    | some s => if s.isEmpty then ofStr "keyword" else s
  let method_norm := lowerStr (stripStr base)
  if method_norm == ofStr "zero-shot" then .zeroShot else .keyword

/-! ### domain._load_external_lexicon

The JSON file is an external input, so its possible states are modelled
abstractly: missing file, I/O failure while opening/reading, JSON that fails
to parse, or a parsed Python value. -/

/-- A parsed JSON value as the Python object `json.load` produces (JSON
object keys are always `str` in Python, and JSON integers load as `int`;
non-integral numbers are irrelevant to every claim and are not modelled). -/
inductive PyVal where
  | str (s : Str)
  | int (n : Int)
  | bool (b : Bool)
  | null
  | list (xs : List PyVal)
  | dict (entries : List (Str × PyVal))

/-- Decimal digits of a natural number. -/
def natDigits (n : Nat) : Str :=
  if h : n < 10 then [48 + n]
  else natDigits (n / 10) ++ [48 + n % 10]
decreasing_by exact Nat.div_lt_self (by omega) (by omega)

/-- `str(n)` for a Python int. -/
def intStr (n : Int) : Str :=
  if n < 0 then 45 :: natDigits (-n).toNat else natDigits n.toNat

mutual

/-- Python `repr` of a JSON-loaded value (ASCII approximation: strings are
wrapped in single quotes without escaping, which is exact for quote-free
strings; only scalar cases are reachable from well-formed lexicon files). -/
def pyRepr : PyVal → Str
  | .str s => 39 :: (s ++ [39])
  | .int n => intStr n
  | .bool true => ofStr "True"
  | .bool false => ofStr "False"
  | .null => ofStr "None"
  | .list xs => 91 :: (pyReprList xs ++ [93])
  | .dict es => 123 :: (pyReprDict es ++ [125])

/-- Comma-separated `repr`s of list elements. -/
def pyReprList : List PyVal → Str
  | [] => []
  | [x] => pyRepr x
  | x :: y :: rest => pyRepr x ++ [44, 32] ++ pyReprList (y :: rest)

/-- Comma-separated `repr`s of dict entries. -/
def pyReprDict : List (Str × PyVal) → Str
  | [] => []
  | [e] => (39 :: (e.1 ++ [39, 58, 32])) ++ pyRepr e.2
  | e :: f :: rest => (39 :: (e.1 ++ [39, 58, 32])) ++ pyRepr e.2 ++ [44, 32] ++ pyReprDict (f :: rest)

end

/-- Python `str(v)`: the string itself for a `str`, `repr` otherwise. -/
def pyStr : PyVal → Str
  | .str s => s
  | v => pyRepr v

/-- `d[k] = v` on an insertion-ordered Python dict: overwrite in place when
the key exists, append otherwise. -/
def dictSet (d : List (Str × List Str)) (k : Str) (v : List Str) : List (Str × List Str) :=
  if (d.find? (fun p => p.1 == k)).isSome then
    d.map (fun p => if p.1 == k then (k, v) else p)
  else d ++ [(k, v)]

/-- The states the external lexicon file can be in. -/
inductive LexiconFile where
  | missing
  | ioError
  | unparsable
  | parsed (v : PyVal)

/-- Is the parsed top-level value a JSON object (`isinstance(data, dict)`)? -/
def isDictVal : PyVal → Bool
  | .dict _ => true
  | _ => false

/-- `domain._load_external_lexicon`: `None` on a missing file, on any I/O or
JSON error (the bare `except` swallows everything), and on a non-object top
level; otherwise the normalized-label → cleaned-keywords dict, or `None`
when that dict ends up empty (`return lex or None`).  An entry contributes
only when its value is a list (`isinstance(keywords, list)`); each keyword
is `str(k).strip().lower()` and is kept only when `str(k).strip()` is
nonempty; JSON object keys are always strings, so the
`isinstance(raw_label, str)` guard never skips an entry. -/
def load_external_lexicon (file : LexiconFile) : Option (List (Str × List Str)) :=
  match file with
  | .missing => none
  | .ioError => none
  | .unparsable => none
  | .parsed v =>
    match v with
    | .dict entries =>
      let lex := entries.foldl
        (fun acc kv =>
          let label := normalize_label kv.1
          match kv.2 with
          | .list keywords =>
            let kw := keywords.filterMap (fun k =>
              let s := stripStr (pyStr k)
              if s.isEmpty then none else some (lowerStr s))
            if kw.isEmpty then acc else dictSet acc label kw
          | _ => acc)
        []
      if lex.isEmpty then none else some lex
    | _ => none

/-- The module-level override: `KEYWORD_LEXICON = _EXTERNAL` when the loader
returned a (necessarily nonempty, hence truthy) dict, else the built-in
default stays. -/
def effective_lexicon (file : LexiconFile) : List (Str × List Str) :=
  match load_external_lexicon file with
  | some lex => lex
  | none => KEYWORD_LEXICON

/-! ## Proof-side normal forms (used to state and prove idempotence facts) -/

/-- Whitespace-collapsed normal form: every whitespace character is a plain
space (32) and no two adjacent characters are both whitespace. -/
def collapsedB : Str → Bool
  | [] => true
  | [c] => !isSpaceCh c || c == 32
  | a :: b :: r => (!isSpaceCh a || (a == 32 && !isSpaceCh b)) && collapsedB (b :: r)

/-- The first character, when present, is not whitespace. -/
def headOK : Str → Bool
  | [] => true
  | c :: _ => !isSpaceCh c

/-- Maximum of a list of naturals (0 for the empty list): the mathematical
maximum that `pick_label`'s fold is compared against. -/
def maxNatList (l : List Nat) : Nat := l.foldr max 0

/-- The maximum keyword score over the candidate labels — the spec-side
"maximum score" of the stable-argmax claim. -/
def maxScore (candidate_labels : List Str) (text : Str) : Nat :=
  maxNatList ((labelsOf candidate_labels).map (fun lbl => keyword_score text (lexget lbl)))

/-! ## Theorems -/

/-- C1: for every compound score, `score_to_label` returns `"Positive"`
exactly when `compound ≥ 0.05`, `"Negative"` exactly when
`compound ≤ -0.05`, and `"Neutral"` exactly otherwise; both thresholds are
inclusive and the three cases are mutually exclusive and exhaustive. -/
theorem score_to_label_thresholds (c : ℚ) :
    (score_to_label c = ofStr "Positive" ↔ 5 / 100 ≤ c) ∧
    (score_to_label c = ofStr "Negative" ↔ c ≤ -(5 / 100)) ∧
    (score_to_label c = ofStr "Neutral" ↔ -(5 / 100) < c ∧ c < 5 / 100) := by
  have hPN : ofStr "Positive" ≠ ofStr "Negative" := by decide
  have hPU : ofStr "Positive" ≠ ofStr "Neutral" := by decide
  have hNP : ofStr "Negative" ≠ ofStr "Positive" := by decide
  have hNU : ofStr "Negative" ≠ ofStr "Neutral" := by decide
  have hUP : ofStr "Neutral" ≠ ofStr "Positive" := by decide
  have hUN : ofStr "Neutral" ≠ ofStr "Negative" := by decide
  unfold score_to_label
  split_ifs with h1 h2
  · exact ⟨⟨fun _ => h1, fun _ => rfl⟩,
      ⟨fun hx => absurd hx hPN, fun hx => False.elim (by linarith)⟩,
      ⟨fun hx => absurd hx hPU, fun hx => False.elim (by linarith [hx.2])⟩⟩
  · exact ⟨⟨fun hx => absurd hx hNP, fun hx => False.elim (by linarith)⟩,
      ⟨fun _ => h2, fun _ => rfl⟩,
      ⟨fun hx => absurd hx hNU, fun hx => False.elim (by linarith [hx.1])⟩⟩
  · push_neg at h1 h2
    exact ⟨⟨fun hx => absurd hx hUP, fun hx => False.elim (by linarith)⟩,
      ⟨fun hx => absurd hx hUN, fun hx => False.elim (by linarith)⟩,
      ⟨fun _ => ⟨h2, h1⟩, fun _ => rfl⟩⟩

/-- C10: for every `method` argument whose trimmed, lowercased form is not
exactly `"zero-shot"` — including `None` and the empty string, both of which
are replaced by `"keyword"` before normalization — `analyze_domains`
selects the keyword strategy (it never raises on unrecognized names). -/
theorem analyze_domains_method_fallback (method : Option Str)
    (h : ∀ s, method = some s → lowerStr (stripStr s) ≠ ofStr "zero-shot") :
    analyze_domains_method method = DomainMethod.keyword := by
  cases method with
  | none => decide
  | some s =>
    by_cases hs : s.isEmpty
    · have : s = [] := by
        cases s with
        | nil => rfl
        | cons a t => simp [List.isEmpty] at hs
      subst this
      decide
    · have hne := h s rfl
      unfold analyze_domains_method
      simp only [hs, if_false]
      have : (lowerStr (stripStr s) == ofStr "zero-shot") = false := by
        exact beq_eq_false_iff_ne.mpr hne
      simp [this]

/-- Witness for C10: `" Keyword "` trims and lowercases to `"keyword"`,
which is not `"zero-shot"`, so the keyword strategy is selected. -/
theorem analyze_domains_method_fallback_witness :
    analyze_domains_method (some (ofStr " Keyword ")) = DomainMethod.keyword :=
  analyze_domains_method_fallback (some (ofStr " Keyword "))
    (fun s hs => by
      injection hs with h
      subst h
      decide)

/-- C9: the external lexicon loader never fails the program.  A missing
file, an I/O error, unparsable JSON, or a parsed top-level value that is not
an object all yield `None` (no override), and in each of those states the
hardcoded default `KEYWORD_LEXICON` remains in effect. -/
theorem load_external_lexicon_swallows_failures (v : PyVal) (hv : isDictVal v = false) :
    load_external_lexicon .missing = none ∧
    load_external_lexicon .ioError = none ∧
    load_external_lexicon .unparsable = none ∧
    load_external_lexicon (.parsed v) = none ∧
    effective_lexicon .missing = KEYWORD_LEXICON ∧
    effective_lexicon .ioError = KEYWORD_LEXICON ∧
    effective_lexicon .unparsable = KEYWORD_LEXICON ∧
    effective_lexicon (.parsed v) = KEYWORD_LEXICON := by
  have hload : load_external_lexicon (.parsed v) = none := by
    cases v with
    | dict entries => simp [isDictVal] at hv
    | str s => rfl
    | int n => rfl
    | bool b => rfl
    | null => rfl
    | list xs => rfl
  refine ⟨rfl, rfl, rfl, hload, rfl, rfl, rfl, ?_⟩
  unfold effective_lexicon
  rw [hload]

/-- Witness for C9: a parsed top-level JSON array (not an object) is
swallowed and the default lexicon stays in effect. -/
theorem load_external_lexicon_swallows_failures_witness :
    load_external_lexicon (.parsed (.list [.str (ofStr "x")])) = none ∧
    effective_lexicon (.parsed (.list [.str (ofStr "x")])) = KEYWORD_LEXICON :=
  ⟨(load_external_lexicon_swallows_failures (.list [.str (ofStr "x")]) rfl).2.2.2.1,
   (load_external_lexicon_swallows_failures (.list [.str (ofStr "x")]) rfl).2.2.2.2.2.2.2⟩

/-- C2 (divergence evidence): when the upstream signals too-many-requests,
`get_user_by_username` raises the typed `RateLimitError` carrying the
retry-after hint, but `get_user_tweets` — which has no `try`/`except` —
lets the raw tweepy `TooManyRequests` exception propagate, so the caller's
dedicated `RateLimitError` handler never sees it (it lands in the generic
handler instead). -/
theorem rate_limit_translation_gap :
    get_user_by_username
        (.raises (.tooManyRequests (some [(ofStr "retry-after", ofStr "30")]))) 0
      = UserResult.rateLimitError (some 30) ∧
    get_user_tweets
        (fun _ _ => .error (.tooManyRequests (some [(ofStr "retry-after", ofStr "30")]))) 5 10
      = Except.error (ApiError.tooManyRequests (some [(ofStr "retry-after", ofStr "30")])) := by
  constructor
  · decide
  · rfl

/-- C6: the retry-after hint is derived in priority order: a numeric
`retry-after` (or `Retry-After`) header wins; otherwise a numeric
`x-rate-limit-reset` (or `X-Rate-Limit-Reset`) header yields the delta to
`now` floored at zero; otherwise the hint is absent.  "Absent or
non-numeric" is phrased as: every value the `or`-chain can produce fails
`isdigit`. -/
theorem retry_after_priority (hs : Headers) (now : Int) :
    (∀ s, pyOrStr (hget hs (ofStr "retry-after")) (hget hs (ofStr "Retry-After")) = some s →
      isdigitStr s = true →
      retry_after_from_headers hs now = some (digitsToNat s : Int)) ∧
    ((∀ s, pyOrStr (hget hs (ofStr "retry-after")) (hget hs (ofStr "Retry-After")) = some s →
        isdigitStr s = false) →
      ∀ s, pyOrStr (hget hs (ofStr "x-rate-limit-reset")) (hget hs (ofStr "X-Rate-Limit-Reset")) = some s →
        isdigitStr s = true →
        retry_after_from_headers hs now = some (max 0 ((digitsToNat s : Int) - now))) ∧
    ((∀ s, pyOrStr (hget hs (ofStr "retry-after")) (hget hs (ofStr "Retry-After")) = some s →
        isdigitStr s = false) →
      (∀ s, pyOrStr (hget hs (ofStr "x-rate-limit-reset")) (hget hs (ofStr "X-Rate-Limit-Reset")) = some s →
        isdigitStr s = false) →
      retry_after_from_headers hs now = none) := by
  refine ⟨?_, ?_, ?_⟩
  · intro s hra hdig
    simp only [retry_after_from_headers]
    rw [hra]
    simp [hdig]
  · intro hnra s hrs hdig
    simp only [retry_after_from_headers]
    rcases hra : pyOrStr (hget hs (ofStr "retry-after")) (hget hs (ofStr "Retry-After")) with _ | t
    · rw [hrs]
      simp [hdig]
    · have hdigf := hnra t hra
      rw [hrs]
      simp [hdigf, hdig]
  · intro hnra hnrs
    simp only [retry_after_from_headers]
    rcases hra : pyOrStr (hget hs (ofStr "retry-after")) (hget hs (ofStr "Retry-After")) with _ | t
    · rcases hrs : pyOrStr (hget hs (ofStr "x-rate-limit-reset")) (hget hs (ofStr "X-Rate-Limit-Reset")) with _ | u
      · simp
      · have := hnrs u hrs
        simp [this]
    · have hdigf := hnra t hra
      rcases hrs : pyOrStr (hget hs (ofStr "x-rate-limit-reset")) (hget hs (ofStr "X-Rate-Limit-Reset")) with _ | u
      · simp [hdigf]
      · have := hnrs u hrs
        simp [hdigf, this]

/-- Witness for C6, matching the spec's three examples: `retry-after: 30`
gives 30; only `x-rate-limit-reset` 45 seconds ahead of `now` gives 45;
no numeric header gives no hint. -/
theorem retry_after_priority_witness :
    retry_after_from_headers [(ofStr "retry-after", ofStr "30")] 0 = some 30 ∧
    retry_after_from_headers [(ofStr "x-rate-limit-reset", ofStr "145")] 100 = some 45 ∧
    retry_after_from_headers [(ofStr "retry-after", ofStr "soon")] 0 = none := by
  refine ⟨?_, ?_, ?_⟩
  · have h := (retry_after_priority [(ofStr "retry-after", ofStr "30")] 0).1
      (ofStr "30") (by decide) (by decide)
    rw [h]
    decide
  · have h := (retry_after_priority [(ofStr "x-rate-limit-reset", ofStr "145")] 100).2.1
      (fun s hsome => nomatch hsome) (ofStr "145") (by decide) (by decide)
    rw [h]
    decide
  · exact (retry_after_priority [(ofStr "retry-after", ofStr "soon")] 0).2.2
      (fun s hsome => by
        have h2 : some (ofStr "soon") = some s := hsome
        injection h2 with h3
        subst h3
        decide)
      (fun s hsome => nomatch hsome)

/-- Helper: along a successful run of the pagination loop, the collected
list grows by at most the (positive) remaining budget, provided the server
honours the per-call page size. -/
theorem get_user_tweets_go_length (server : Server)
    (hserver : ∀ tok lim, 1 ≤ lim → ∀ page items, server tok lim = .ok page →
      page.data = some items → (items.length : Int) ≤ lim) :
    ∀ fuel tok remaining acc reqs res,
      get_user_tweets_go server fuel tok remaining acc reqs = .ok res →
      res.1.length ≤ acc.length + remaining.toNat := by
  intro fuel
  induction fuel with
  | zero =>
    intro tok remaining acc reqs res h
    simp only [get_user_tweets_go] at h
    injection h with h
    subst h
    simp
  | succ fuel ih =>
    intro tok remaining acc reqs res h
    simp only [get_user_tweets_go] at h
    by_cases hrem : remaining ≤ 0
    · rw [if_pos hrem] at h
      injection h with h
      subst h
      simp
    · rw [if_neg hrem] at h
      have hlim : 1 ≤ min 100 remaining := by omega
      split at h
      · exact absurd h (by simp)
      · rename_i page hsrv
        split at h
        · injection h with h
          subst h
          simp
        · rename_i items hdata
          have hlen : (items.length : Int) ≤ min 100 remaining :=
            hserver tok (min 100 remaining) hlim page items hsrv hdata
          split at h
          · injection h with h
            subst h
            simp only [List.length_append]
            omega
          · rename_i t htok
            have := ih (some t) (remaining - items.length) (acc ++ items) (reqs + 1) res h
            simp only [List.length_append] at this
            omega

/-- C3 (amended): if every upstream page holds at most the per-call limit
requested (which the loop always takes ≥ 1), a successful
`get_user_tweets(max_results)` returns at most `max(1, max_results)` items —
in particular at most `max_results` whenever `max_results ≥ 1`, but one item
may be returned when `max_results = 0`. -/
theorem get_user_tweets_at_most (server : Server)
    (hserver : ∀ tok lim, 1 ≤ lim → ∀ page items, server tok lim = .ok page →
      page.data = some items → (items.length : Int) ≤ lim)
    (fuel : Nat) (max_results : Int) (res : List Nat × Nat)
    (hrun : get_user_tweets server fuel max_results = .ok res) :
    res.1.length ≤ (max 1 max_results).toNat := by
  have := get_user_tweets_go_length server hserver fuel none (max 1 max_results) [] 0 res hrun
  simpa using this

/-- Witness for C3 (amended): a one-page server under `max_results = 5`
returns one item, within the `max(1, 5) = 5` bound. -/
theorem get_user_tweets_at_most_witness :
    get_user_tweets (fun _ _ => Except.ok ⟨some [7], none⟩) 3 5 = Except.ok ([7], 1) ∧
    ([7] : List Nat).length ≤ ((max 1 (5 : Int))).toNat :=
  ⟨rfl,
   get_user_tweets_at_most (fun _ _ => Except.ok ⟨some [7], none⟩)
     (fun tok lim hlim page items hpage hdata => by
       injection hpage with h
       subst h
       simp only at hdata
       injection hdata with h2
       subst h2
       simpa using hlim)
     3 5 ([7], 1) rfl⟩

/-- Counterexample to C3 as stated: at the boundary `requested_limit = 0`
the loop still issues one request for one item (`remaining = max(1, 0) = 1`)
and returns 1 > 0 items.  The server honours the requested page size: it
serves one item when the requested per-call limit is ≥ 1 and an empty page
otherwise. -/
theorem get_user_tweets_limit_zero_cex :
    get_user_tweets
        (fun _ lim => Except.ok ⟨some (if 1 ≤ lim then [7] else []), none⟩) 1 0
      = Except.ok ([7], 1) ∧
    ¬(([7] : List Nat).length ≤ 0) := by
  constructor
  · rfl
  · decide

/-- The counterexample server of C3 honours the per-call page size, so it
satisfies the claim's premise. -/
theorem cex_server_respects_page_size :
    ∀ (tok : Option Nat) (lim : Int), 1 ≤ lim → ∀ (page : Page) (items : List Nat),
      ((fun _ lim => Except.ok ⟨some (if 1 ≤ lim then [7] else []), none⟩ : Server)) tok lim
        = Except.ok page →
      page.data = some items → (items.length : Int) ≤ lim := by
  intro tok lim hlim page items hpage hdata
  simp only at hpage
  injection hpage with h
  subst h
  simp only [if_pos hlim] at hdata
  injection hdata with h2
  subst h2
  simpa using hlim

/-- Helper: a successful run of the pagination loop makes at most `fuel`
further upstream requests beyond the `reqs` already counted. -/
theorem get_user_tweets_go_reqs (server : Server) :
    ∀ fuel tok remaining acc reqs res,
      get_user_tweets_go server fuel tok remaining acc reqs = .ok res →
      res.2 ≤ reqs + fuel := by
  intro fuel
  induction fuel with
  | zero =>
    intro tok remaining acc reqs res h
    simp only [get_user_tweets_go] at h
    injection h with h
    subst h
    simp
  | succ fuel ih =>
    intro tok remaining acc reqs res h
    simp only [get_user_tweets_go] at h
    by_cases hrem : remaining ≤ 0
    · rw [if_pos hrem] at h
      injection h with h
      subst h
      omega
    · rw [if_neg hrem] at h
      split at h
      · exact absurd h (by simp)
      · split at h
        · injection h with h
          subst h
          omega
        · split at h
          · injection h with h
            subst h
            omega
          · have := ih _ _ _ _ _ h
            omega

/-- C5: the pagination loop terminates as soon as a response carries no
payload (`resp.data is None`) or no continuation token, even while
`remaining > 0` — in each case exactly one more request is made and the
loop returns — and every run against a finite supply of upstream responses
(the `fuel` budget) makes at most `fuel` requests. -/
theorem pagination_terminates (server : Server) (fuel : Nat) (tok : Option Nat)
    (remaining : Int) (acc : List Nat) (reqs : Nat) :
    (∀ res, get_user_tweets_go server fuel tok remaining acc reqs = .ok res →
      res.2 ≤ reqs + fuel) ∧
    (0 < remaining → ∀ page, server tok (min 100 remaining) = .ok page →
      page.data = none →
      get_user_tweets_go server (fuel + 1) tok remaining acc reqs = .ok (acc, reqs + 1)) ∧
    (0 < remaining → ∀ page items, server tok (min 100 remaining) = .ok page →
      page.data = some items → page.next_token = none →
      get_user_tweets_go server (fuel + 1) tok remaining acc reqs
        = .ok (acc ++ items, reqs + 1)) := by
  refine ⟨fun res h => get_user_tweets_go_reqs server fuel tok remaining acc reqs res h,
    ?_, ?_⟩
  · intro hpos page hsrv hdata
    have hrem : ¬remaining ≤ 0 := by omega
    simp only [get_user_tweets_go, if_neg hrem, hsrv, hdata]
  · intro hpos page items hsrv hdata htok
    have hrem : ¬remaining ≤ 0 := by omega
    simp only [get_user_tweets_go, if_neg hrem, hsrv, hdata, htok]

/-- Witness for C5: a server whose single page has two items and no
continuation token stops the loop after exactly one request, although
`remaining` is still `10 - 2 = 8 > 0`. -/
theorem pagination_terminates_witness :
    get_user_tweets_go (fun _ _ => Except.ok ⟨some [1, 2], none⟩) 4 none 10 [] 0
      = Except.ok ([1, 2], 1) :=
  (pagination_terminates (fun _ _ => Except.ok ⟨some [1, 2], none⟩) 3 none 10 [] 0).2.2
    (by norm_num) ⟨some [1, 2], none⟩ [1, 2] rfl rfl rfl

/-- Helper: the keep-first-maximum fold of `pick_label` never decreases the
score of its accumulator. -/
theorem pickFold_snd_le (rest : List (Str × Nat)) :
    ∀ s0 : Str × Nat, s0.2 ≤ (rest.foldl (fun b p => if b.2 < p.2 then p else b) s0).2 := by
  induction rest with
  | nil => intro s0; simp
  | cons p r ih =>
    intro s0
    simp only [List.foldl_cons]
    by_cases h : s0.2 < p.2
    · rw [if_pos h]
      exact le_of_lt (lt_of_lt_of_le h (ih p))
    · rw [if_neg h]
      exact ih s0

/-- Helper: if the fold of `pick_label` ends with the accumulator's score,
it never switched away from the accumulator. -/
theorem pickFold_fix (rest : List (Str × Nat)) :
    ∀ s0 : Str × Nat,
      (rest.foldl (fun b p => if b.2 < p.2 then p else b) s0).2 = s0.2 →
      rest.foldl (fun b p => if b.2 < p.2 then p else b) s0 = s0 := by
  induction rest with
  | nil => intro s0 _; rfl
  | cons p r ih =>
    intro s0 hs
    simp only [List.foldl_cons] at hs ⊢
    by_cases h : s0.2 < p.2
    · rw [if_pos h] at hs
      have := pickFold_snd_le r p
      omega
    · rw [if_neg h] at hs ⊢
      exact ih s0 hs

/-- Helper: the fold of `pick_label` computes the maximum score. -/
theorem pickFold_max (rest : List (Str × Nat)) :
    ∀ s0 : Str × Nat,
      (rest.foldl (fun b p => if b.2 < p.2 then p else b) s0).2
        = max s0.2 (maxNatList (rest.map Prod.snd)) := by
  induction rest with
  | nil => intro s0; simp [maxNatList]
  | cons p r ih =>
    intro s0
    simp only [List.foldl_cons, List.map_cons]
    have hm : maxNatList (p.2 :: r.map Prod.snd) = max p.2 (maxNatList (r.map Prod.snd)) := rfl
    rw [hm]
    by_cases h : s0.2 < p.2
    · rw [if_pos h, ih p]
      omega
    · rw [if_neg h, ih s0]
      omega

/-- Helper: the fold of `pick_label` returns the accumulator or a list
element. -/
theorem pickFold_mem (rest : List (Str × Nat)) :
    ∀ s0 : Str × Nat,
      rest.foldl (fun b p => if b.2 < p.2 then p else b) s0 = s0 ∨
      rest.foldl (fun b p => if b.2 < p.2 then p else b) s0 ∈ rest := by
  induction rest with
  | nil => intro _; exact Or.inl rfl
  | cons p r ih =>
    intro s0
    simp only [List.foldl_cons]
    by_cases h : s0.2 < p.2
    · rw [if_pos h]
      rcases ih p with h2 | h2
      · exact Or.inr (by rw [h2]; exact List.mem_cons_self _ _)
      · exact Or.inr (List.mem_cons_of_mem _ h2)
    · rw [if_neg h]
      rcases ih s0 with h2 | h2
      · exact Or.inl h2
      · exact Or.inr (List.mem_cons_of_mem _ h2)

/-- Helper: `find?` skips a head that fails the predicate. -/
theorem find?_cons_false {α : Type} (pr : α → Bool) (a : α) (l : List α) (h : pr a = false) :
    (a :: l).find? pr = l.find? pr := by
  simp [List.find?, h]

/-- Helper: `find?` returns a head that satisfies the predicate. -/
theorem find?_cons_true {α : Type} (pr : α → Bool) (a : α) (l : List α) (h : pr a = true) :
    (a :: l).find? pr = some a := by
  simp [List.find?, h]

/-- Helper: the fold of `pick_label` is the stable argmax — it returns the
first element of the scored list whose score is the maximum. -/
theorem pickFold_find (rest : List (Str × Nat)) :
    ∀ s0 : Str × Nat,
      (s0 :: rest).find?
          (fun q => q.2 == (rest.foldl (fun b p => if b.2 < p.2 then p else b) s0).2)
        = some (rest.foldl (fun b p => if b.2 < p.2 then p else b) s0) := by
  induction rest with
  | nil =>
    intro s0
    simp [List.find?]
  | cons p r ih =>
    intro s0
    simp only [List.foldl_cons]
    by_cases h : s0.2 < p.2
    · rw [if_pos h]
      have hlt : s0.2 < (r.foldl (fun b p => if b.2 < p.2 then p else b) p).2 :=
        lt_of_lt_of_le h (pickFold_snd_le r p)
      rw [find?_cons_false
        (fun q => q.2 == (r.foldl (fun b p => if b.2 < p.2 then p else b) p).2) s0 (p :: r)
        (by simp; omega)]
      exact ih p
    · rw [if_neg h]
      by_cases hq : s0.2 = (r.foldl (fun b p => if b.2 < p.2 then p else b) s0).2
      · have hfix := pickFold_fix r s0 hq.symm
        rw [hfix]
        exact find?_cons_true _ s0 (p :: r) (by simp)
      · have hle := pickFold_snd_le r s0
        rw [find?_cons_false
          (fun q => q.2 == (r.foldl (fun b p => if b.2 < p.2 then p else b) s0).2) s0 (p :: r)
          (by simp; omega)]
        rw [find?_cons_false
          (fun q => q.2 == (r.foldl (fun b p => if b.2 < p.2 then p else b) s0).2) p r
          (by simp; omega)]
        have hr := ih s0
        rw [find?_cons_false
          (fun q => q.2 == (r.foldl (fun b p => if b.2 < p.2 then p else b) s0).2) s0 r
          (by simp; omega)] at hr
        exact hr

/-- Helper: `pick_label` on a nonempty label list, unfolded. -/
theorem pick_label_cons (l0 : Str) (ls : List Str) (text : Str) :
    pick_label (l0 :: ls) text =
      if ((ls.map fun lbl => (lbl, keyword_score text (lexget lbl))).foldl
            (fun b p => if b.2 < p.2 then p else b)
            (l0, keyword_score text (lexget l0))).2 = 0
      then (ofStr "Other", 0)
      else (((ls.map fun lbl => (lbl, keyword_score text (lexget lbl))).foldl
              (fun b p => if b.2 < p.2 then p else b)
              (l0, keyword_score text (lexget l0))).1,
            (((ls.map fun lbl => (lbl, keyword_score text (lexget lbl))).foldl
              (fun b p => if b.2 < p.2 then p else b)
              (l0, keyword_score text (lexget l0))).2 : ℚ)) := rfl

/-- Helper: the candidate-label list actually classified is never empty
(an empty or missing candidate list falls back to the built-in defaults). -/
theorem labelsOf_ne_nil (candidate_labels : List Str) : labelsOf candidate_labels ≠ [] := by
  unfold labelsOf
  by_cases h : candidate_labels.isEmpty
  · rw [if_pos h]
    simp [DEFAULT_DOMAIN_LABELS]
  · rw [if_neg h]
    cases candidate_labels with
    | nil => simp [List.isEmpty] at h
    | cons a t => simp

/-- C7: under the keyword method, `domain_confidence = 0` iff
`domain_label = "Other"`, for every text and candidate-label list; in
particular a text scoring zero against every candidate label's keyword set
is classified `("Other", 0.0)`. -/
theorem keyword_other_iff (candidate_labels : List Str) (text : Str) :
    ((classify_one candidate_labels text).2 = 0 ↔
      (classify_one candidate_labels text).1 = ofStr "Other") ∧
    ((∀ lbl ∈ labelsOf candidate_labels, keyword_score text (lexget lbl) = 0) →
      classify_one candidate_labels text = (ofStr "Other", 0)) := by
  rcases hL : labelsOf candidate_labels with _ | ⟨l0, ls⟩
  · exact absurd hL (labelsOf_ne_nil candidate_labels)
  · unfold classify_one
    rw [hL, pick_label_cons]
    set B := ((ls.map fun lbl => (lbl, keyword_score text (lexget lbl))).foldl
        (fun b p => if b.2 < p.2 then p else b)
        (l0, keyword_score text (lexget l0))) with hB
    have hmem : ∃ lbl, lbl ∈ l0 :: ls ∧ B = (lbl, keyword_score text (lexget lbl)) := by
      rcases pickFold_mem (ls.map fun lbl => (lbl, keyword_score text (lexget lbl)))
          (l0, keyword_score text (lexget l0)) with h2 | h2
      · exact ⟨l0, List.mem_cons_self _ _, h2⟩
      · rw [List.mem_map] at h2
        rcases h2 with ⟨lbl, hlbl, hbeq⟩
        exact ⟨lbl, List.mem_cons_of_mem _ hlbl, hbeq.symm⟩
    by_cases hbz : B.2 = 0
    · rw [if_pos hbz]
      exact ⟨by simp, fun _ => rfl⟩
    · rw [if_neg hbz]
      constructor
      · constructor
        · intro hc
          simp only at hc
          exact absurd (by exact_mod_cast hc) hbz
        · intro hc
          simp only at hc
          exfalso
          rcases hmem with ⟨lbl, _, hb⟩
          have h1 : lbl = ofStr "Other" := by
            rw [hb] at hc
            exact hc
          have h2 : B.2 = 0 := by
            rw [hb, h1]
            show keyword_score text (lexget (ofStr "Other")) = 0
            have hlex : lexget (ofStr "Other") = [] := by decide
            rw [hlex]
            rfl
          exact hbz h2
      · intro hall
        exfalso
        rcases hmem with ⟨lbl, hlbl, hb⟩
        have h2 : B.2 = 0 := by
          rw [hb]
          exact hall lbl (hL ▸ hlbl)
        exact hbz h2

/-- Witness for C7: the text `"qqq"` contains no lexicon keyword for any
default label, and is classified `("Other", 0.0)`. -/
theorem keyword_other_iff_witness :
    (∀ lbl ∈ labelsOf [], keyword_score (ofStr "qqq") (lexget lbl) = 0) ∧
    classify_one [] (ofStr "qqq") = (ofStr "Other", 0) :=
  ⟨by decide, (keyword_other_iff [] (ofStr "qqq")).2 (by decide)⟩

/-- C8: when the maximum keyword score over the candidate labels is
nonzero, the keyword classifier returns the first label (in candidate-list
order) attaining that maximum — the stable argmax — and reports the raw hit
count, cast to `ℚ`, as the confidence. -/
theorem keyword_stable_argmax (candidate_labels : List Str) (text : Str)
    (hpos : 0 < maxScore candidate_labels text) :
    (labelsOf candidate_labels).find?
        (fun lbl => keyword_score text (lexget lbl) == maxScore candidate_labels text)
      = some (classify_one candidate_labels text).1 ∧
    (classify_one candidate_labels text).2 = (maxScore candidate_labels text : ℚ) := by
  rcases hL : labelsOf candidate_labels with _ | ⟨l0, ls⟩
  · exact absurd hL (labelsOf_ne_nil candidate_labels)
  · unfold classify_one
    rw [hL, pick_label_cons]
    set B := ((ls.map fun lbl => (lbl, keyword_score text (lexget lbl))).foldl
        (fun b p => if b.2 < p.2 then p else b)
        (l0, keyword_score text (lexget l0))) with hB
    have hmax : B.2 = maxScore candidate_labels text := by
      rw [hB, pickFold_max]
      unfold maxScore
      rw [hL]
      simp only [List.map_cons, List.map_map]
      have hcomp : (Prod.snd ∘ fun lbl => (lbl, keyword_score text (lexget lbl))) =
          fun lbl => keyword_score text (lexget lbl) := rfl
      rw [hcomp]
      rfl
    have hbz : ¬(B.2 = 0) := by
      rw [hmax]
      omega
    rw [if_neg hbz]
    constructor
    · have hfind := pickFold_find (ls.map fun lbl => (lbl, keyword_score text (lexget lbl)))
        (l0, keyword_score text (lexget l0))
      rw [← hB, hmax] at hfind
      have hcons : ((l0, keyword_score text (lexget l0)) ::
            ls.map fun lbl => (lbl, keyword_score text (lexget lbl)))
          = (l0 :: ls).map fun lbl => (lbl, keyword_score text (lexget lbl)) := rfl
      rw [hcons, List.find?_map] at hfind
      have hcomp : ((fun q : Str × Nat => q.2 == maxScore candidate_labels text) ∘
            fun lbl => (lbl, keyword_score text (lexget lbl)))
          = fun lbl => keyword_score text (lexget lbl) == maxScore candidate_labels text := rfl
      rw [hcomp] at hfind
      rcases Option.map_eq_some'.mp hfind with ⟨lbl, hfl, hfb⟩
      rw [hfl]
      simp only
      rw [← hfb]
    · simp only
      rw [hmax]

/-- Witness for C8: with the default labels and the text `"election"`, the
maximum score is 1 > 0, attained first (and only) by `"Politics"`, which is
returned with confidence 1. -/
theorem keyword_stable_argmax_witness :
    0 < maxScore [] (ofStr "election") ∧
    ((labelsOf []).find?
        (fun lbl => keyword_score (ofStr "election") (lexget lbl) == maxScore [] (ofStr "election"))
      = some (classify_one [] (ofStr "election")).1 ∧
    (classify_one [] (ofStr "election")).2 = (maxScore [] (ofStr "election") : ℚ)) :=
  ⟨by decide, keyword_stable_argmax [] (ofStr "election") (by decide)⟩

/-- Helper: characters of `spaceCollapse l` come from `l` or are spaces. -/
theorem mem_spaceCollapse (c : Nat) : ∀ l : Str, c ∈ spaceCollapse l → c ∈ l ∨ c = 32 := by
  intro l
  induction l with
  | nil => intro h; simp [spaceCollapse] at h
  | cons a t ih =>
    intro h
    cases t with
    | nil =>
      simp only [spaceCollapse] at h
      rcases List.mem_singleton.mp h with h2
      by_cases hsa : isSpaceCh a = true
      · rw [if_pos hsa] at h2
        exact Or.inr h2
      · rw [if_neg hsa] at h2
        exact Or.inl (by rw [h2]; exact List.mem_cons_self _ _)
    | cons b r =>
      simp only [spaceCollapse] at h
      by_cases hab : (isSpaceCh a && isSpaceCh b) = true
      · rw [if_pos hab] at h
        rcases ih h with h2 | h2
        · exact Or.inl (List.mem_cons_of_mem _ h2)
        · exact Or.inr h2
      · rw [if_neg hab] at h
        rcases List.mem_cons.mp h with h2 | h2
        · by_cases hsa : isSpaceCh a = true
          · rw [if_pos hsa] at h2
            exact Or.inr h2
          · rw [if_neg hsa] at h2
            exact Or.inl (by rw [h2]; exact List.mem_cons_self _ _)
        · rcases ih h2 with h3 | h3
          · exact Or.inl (List.mem_cons_of_mem _ h3)
          · exact Or.inr h3

/-- Helper: characters of a literal-pattern substitution come from the
input or are the replacement character. -/
theorem mem_replGo (pat : Str) (r : Nat) (c : Nat) :
    ∀ l k, c ∈ replGo pat r k l → c ∈ l ∨ c = r := by
  intro l
  induction l with
  | nil => intro k h; simp [replGo] at h
  | cons a t ih =>
    intro k h
    cases k with
    | succ k2 =>
      simp only [replGo] at h
      rcases ih k2 h with h2 | h2
      · exact Or.inl (List.mem_cons_of_mem _ h2)
      · exact Or.inr h2
    | zero =>
      simp only [replGo] at h
      by_cases hp : pat.isPrefixOf (a :: t) = true
      · rw [if_pos hp] at h
        rcases List.mem_cons.mp h with h2 | h2
        · exact Or.inr h2
        · rcases ih _ h2 with h3 | h3
          · exact Or.inl (List.mem_cons_of_mem _ h3)
          · exact Or.inr h3
      · rw [if_neg hp] at h
        rcases List.mem_cons.mp h with h2 | h2
        · exact Or.inl (by rw [h2]; exact List.mem_cons_self _ _)
        · rcases ih _ h2 with h3 | h3
          · exact Or.inl (List.mem_cons_of_mem _ h3)
          · exact Or.inr h3

/-- Helper: membership is preserved from `dropWhile` back to the list. -/
theorem mem_dropWhile (p : Nat → Bool) (l : Str) (c : Nat) (h : c ∈ l.dropWhile p) : c ∈ l := by
  rcases List.dropWhile_suffix (l := l) p with ⟨u, hu⟩
  rw [← hu]
  exact List.mem_append_right u h

/-- Helper: membership is preserved from `stripStr` back to the list. -/
theorem mem_stripStr (l : Str) (c : Nat) (h : c ∈ stripStr l) : c ∈ l := by
  unfold stripStr at h
  rw [List.mem_reverse] at h
  have h2 := mem_dropWhile _ _ _ h
  rw [List.mem_reverse] at h2
  exact mem_dropWhile _ _ _ h2

/-- Helper: ASCII lowercasing is idempotent. -/
theorem lowerCh_idem (c : Nat) : lowerCh (lowerCh c) = lowerCh c := by
  by_cases h : (65 ≤ c && c ≤ 90) = true
  · have e1 : lowerCh c = c + 32 := by unfold lowerCh; rw [if_pos h]
    rw [e1]
    have h2 : ¬((65 ≤ c + 32 && c + 32 ≤ 90) = true) := by
      simp at h ⊢
      omega
    unfold lowerCh
    rw [if_neg h2]
  · have e1 : lowerCh c = c := by unfold lowerCh; rw [if_neg h]
    rw [e1]
    exact e1

/-- Helper: lowercasing does not change whitespace-ness. -/
theorem isSpace_lowerCh (c : Nat) : isSpaceCh (lowerCh c) = isSpaceCh c := by
  by_cases h : (65 ≤ c && c ≤ 90) = true
  · have e1 : lowerCh c = c + 32 := by unfold lowerCh; rw [if_pos h]
    rw [e1]
    simp only [Bool.and_eq_true, decide_eq_true_eq] at h
    have e2 : isSpaceCh (c + 32) = false := by
      simp [isSpaceCh]
      omega
    have e3 : isSpaceCh c = false := by
      simp [isSpaceCh]
      omega
    rw [e2, e3]
  · have e1 : lowerCh c = c := by unfold lowerCh; rw [if_neg h]
    rw [e1]

/-- Helper: only `#` lowercases to `#`. -/
theorem lowerCh_eq_hash (c : Nat) (h : lowerCh c = 35) : c = 35 := by
  by_cases hc : (65 ≤ c && c ≤ 90) = true
  · have e1 : lowerCh c = c + 32 := by unfold lowerCh; rw [if_pos hc]
    rw [e1] at h
    simp at hc
    omega
  · have e1 : lowerCh c = c := by unfold lowerCh; rw [if_neg hc]
    rw [e1] at h
    exact h

/-- Helper: `clean_text` output never contains `#` — the hashtag-stripping
pass removes it and no later pass can reintroduce it. -/
theorem hash_not_mem_clean_text (x : Str) : ¬((35 : Nat) ∈ clean_text x) := by
  intro hmem
  unfold clean_text at hmem
  rw [lowerStr, List.mem_map] at hmem
  rcases hmem with ⟨d, hd, hld⟩
  have hd35 : d = 35 := lowerCh_eq_hash d hld
  subst hd35
  have h2 := mem_stripStr _ _ hd
  rcases mem_spaceCollapse _ _ h2 with h3 | h3
  swap
  · omega
  unfold gtSub at h3
  rcases mem_replGo _ _ _ _ _ h3 with h4 | h4
  swap
  · omega
  unfold ltSub at h4
  rcases mem_replGo _ _ _ _ _ h4 with h5 | h5
  swap
  · omega
  unfold ampSub at h5
  rcases mem_replGo _ _ _ _ _ h5 with h6 | h6
  swap
  · omega
  unfold hashStrip at h6
  rcases List.mem_filter.mp h6 with ⟨_, hcond⟩
  simp at hcond

/-- Helper: the head of a collapsed nonempty list is the head of the input,
with whitespace normalized to a space. -/
theorem collapse_head (r : Str) : ∀ b : Nat,
    ∃ t, spaceCollapse (b :: r) = (if isSpaceCh b then 32 else b) :: t := by
  induction r with
  | nil => intro b; exact ⟨[], rfl⟩
  | cons b2 r2 ih =>
    intro b
    by_cases hab : (isSpaceCh b && isSpaceCh b2) = true
    · rcases ih b2 with ⟨t, ht⟩
      refine ⟨t, ?_⟩
      simp only [spaceCollapse]
      rw [if_pos hab, ht]
      simp only [Bool.and_eq_true] at hab
      rw [if_pos hab.1, if_pos hab.2]
    · refine ⟨spaceCollapse (b2 :: r2), ?_⟩
      simp only [spaceCollapse]
      rw [if_neg hab]

/-- Helper: `spaceCollapse` output is in collapsed normal form. -/
theorem collapsedB_collapse : ∀ l : Str, collapsedB (spaceCollapse l) = true := by
  intro l
  induction l with
  | nil => rfl
  | cons a t ih =>
    cases t with
    | nil =>
      by_cases hsa : isSpaceCh a = true
      · simp [spaceCollapse, collapsedB, hsa]
      · simp [spaceCollapse, collapsedB, hsa]
    | cons b r =>
      by_cases hab : (isSpaceCh a && isSpaceCh b) = true
      · simp only [spaceCollapse]
        rw [if_pos hab]
        exact ih
      · simp only [spaceCollapse]
        rw [if_neg hab]
        rcases collapse_head r b with ⟨t2, ht2⟩
        rw [ht2]
        rw [ht2] at ih
        simp only [Bool.and_eq_true] at hab
        simp only [collapsedB, Bool.and_eq_true]
        refine ⟨?_, ih⟩
        by_cases hsa : isSpaceCh a = true
        · have hsb : isSpaceCh b = false := by
            cases hb : isSpaceCh b
            · rfl
            · exact absurd ⟨hsa, hb⟩ hab
          rw [if_pos hsa, if_neg (by simp [hsb])]
          simp [hsb]
        · have hsa' : isSpaceCh a = false := by
            cases hb : isSpaceCh a
            · rfl
            · exact absurd hb hsa
          rw [if_neg hsa]
          simp [hsa']

/-- Helper: `spaceCollapse` is the identity on collapsed normal forms. -/
theorem collapse_of_collapsedB : ∀ l : Str, collapsedB l = true → spaceCollapse l = l := by
  intro l
  induction l with
  | nil => intro _; rfl
  | cons a t ih =>
    intro h
    cases t with
    | nil =>
      simp only [collapsedB] at h
      simp only [spaceCollapse]
      rcases Bool.or_eq_true_iff.mp h with h2 | h2
      · have hsa : isSpaceCh a = false := by simpa using h2
        rw [if_neg (by simp [hsa])]
      · have ha32 : a = 32 := by simpa using h2
        subst ha32
        decide
    | cons b r =>
      simp only [collapsedB, Bool.and_eq_true] at h
      rcases h with ⟨hpair, htail⟩
      have htl := ih htail
      have hnot : ¬((isSpaceCh a && isSpaceCh b) = true) := by
        intro hboth
        simp only [Bool.and_eq_true] at hboth
        rcases Bool.or_eq_true_iff.mp hpair with h2 | h2
        · rw [hboth.1] at h2
          simp at h2
        · simp only [Bool.and_eq_true] at h2
          rw [hboth.2] at h2
          simp at h2
      simp only [spaceCollapse]
      rw [if_neg hnot, htl]
      by_cases hsa : isSpaceCh a = true
      · have ha32 : a = 32 := by
          rcases Bool.or_eq_true_iff.mp hpair with h2 | h2
          · rw [hsa] at h2
            simp at h2
          · simp only [Bool.and_eq_true] at h2
            simpa using h2.1
        rw [if_pos hsa, ha32]
      · rw [if_neg hsa]

/-- Helper: collapsed normal form is preserved by removing a head. -/
theorem collapsedB_tail (a : Nat) (t : Str) (h : collapsedB (a :: t) = true) :
    collapsedB t = true := by
  cases t with
  | nil => rfl
  | cons b r =>
    simp only [collapsedB, Bool.and_eq_true] at h
    exact h.2

/-- Helper: collapsed normal form is inherited by the right part of an
append. -/
theorem collapsedB_append_right (u : Str) : ∀ s : Str,
    collapsedB (u ++ s) = true → collapsedB s = true := by
  induction u with
  | nil => intro s h; simpa using h
  | cons a u2 ih => intro s h; exact ih s (collapsedB_tail a _ h)

/-- Helper: collapsed normal form is inherited by the left part of an
append. -/
theorem collapsedB_append_left : ∀ u t : Str,
    collapsedB (u ++ t) = true → collapsedB u = true := by
  intro u
  induction u with
  | nil => intro t _; rfl
  | cons a u2 ih =>
    intro t h
    cases u2 with
    | nil =>
      cases t with
      | nil => simpa using h
      | cons c t2 =>
        simp only [List.cons_append, List.nil_append, collapsedB, Bool.and_eq_true] at h
        rcases h with ⟨hpair, _⟩
        simp only [collapsedB]
        rcases Bool.or_eq_true_iff.mp hpair with h2 | h2
        · simp [h2]
        · simp only [Bool.and_eq_true] at h2
          simp [h2.1]
    | cons b u3 =>
      simp only [List.cons_append, collapsedB, Bool.and_eq_true] at h
      rcases h with ⟨hpair, htail⟩
      have h2 := ih t htail
      simp only [collapsedB, Bool.and_eq_true]
      exact ⟨hpair, h2⟩

/-- Helper: collapsed normal form is preserved by lowercasing. -/
theorem collapsedB_lowerStr : ∀ l : Str, collapsedB l = true → collapsedB (lowerStr l) = true := by
  intro l
  induction l with
  | nil => intro _; rfl
  | cons a t ih =>
    intro h
    cases t with
    | nil =>
      simp only [collapsedB, Bool.or_eq_true_iff] at h
      simp only [lowerStr, List.map_cons, List.map_nil, collapsedB, Bool.or_eq_true_iff]
      rcases h with h2 | h2
      · left
        have hsa : isSpaceCh a = false := by simpa using h2
        simp [isSpace_lowerCh, hsa]
      · right
        have ha32 : a = 32 := by simpa using h2
        subst ha32
        decide
    | cons b r =>
      simp only [collapsedB, Bool.and_eq_true] at h
      rcases h with ⟨hpair, htail⟩
      have h2 := ih htail
      simp only [lowerStr, List.map_cons] at h2 ⊢
      simp only [collapsedB, Bool.and_eq_true]
      refine ⟨?_, h2⟩
      rcases Bool.or_eq_true_iff.mp hpair with h3 | h3
      · apply Bool.or_eq_true_iff.mpr
        left
        have hsa : isSpaceCh a = false := by simpa using h3
        simp [isSpace_lowerCh, hsa]
      · simp only [Bool.and_eq_true] at h3
        have ha32 : a = 32 := by simpa using h3.1
        subst ha32
        have hsb : isSpaceCh b = false := by simpa using h3.2
        apply Bool.or_eq_true_iff.mpr
        right
        have e1 : lowerCh 32 = 32 := by decide
        rw [e1]
        simp [isSpace_lowerCh, hsb]

/-- Helper: after `dropWhile isSpaceCh` the head is not whitespace. -/
theorem headOK_dropWhile (l : Str) : headOK (l.dropWhile isSpaceCh) = true := by
  induction l with
  | nil => rfl
  | cons a t ih =>
    by_cases hp : isSpaceCh a = true
    · simp only [List.dropWhile, hp]
      exact ih
    · have hp' : isSpaceCh a = false := by
        cases hb : isSpaceCh a
        · rfl
        · exact absurd hb hp
      simp only [List.dropWhile, hp']
      simp [headOK, hp']

/-- Helper: `dropWhile isSpaceCh` is the identity when the head is not
whitespace. -/
theorem dropWhile_of_headOK (l : Str) (h : headOK l = true) : l.dropWhile isSpaceCh = l := by
  cases l with
  | nil => rfl
  | cons a t =>
    have hp : isSpaceCh a = false := by simpa [headOK] using h
    simp [List.dropWhile, hp]

/-- Helper: lowercasing does not change whether the head is whitespace. -/
theorem headOK_lowerStr (l : Str) : headOK (lowerStr l) = headOK l := by
  cases l with
  | nil => rfl
  | cons a t => simp [headOK, lowerStr, isSpace_lowerCh]

/-- Helper: a nonempty append shares its head with its left part. -/
theorem headOK_append_left (x y : Str) (h : headOK (x ++ y) = true) : headOK x = true := by
  cases x with
  | nil => rfl
  | cons a t => simpa [headOK] using h

/-- Helper: `dropWhile isSpaceCh` is `stripStr` plus a (whitespace) tail. -/
theorem stripStr_eq_append (l : Str) :
    ∃ u, l.dropWhile isSpaceCh = stripStr l ++ u := by
  rcases List.dropWhile_suffix (l := (l.dropWhile isSpaceCh).reverse) isSpaceCh with ⟨u, hu⟩
  refine ⟨u.reverse, ?_⟩
  unfold stripStr
  calc l.dropWhile isSpaceCh
      = ((l.dropWhile isSpaceCh).reverse).reverse := (List.reverse_reverse _).symm
    _ = (u ++ ((l.dropWhile isSpaceCh).reverse).dropWhile isSpaceCh).reverse := by rw [hu]
    _ = (((l.dropWhile isSpaceCh).reverse).dropWhile isSpaceCh).reverse ++ u.reverse :=
        List.reverse_append _ _

/-- Helper: `stripStr` output has a non-whitespace head. -/
theorem headOK_stripStr (l : Str) : headOK (stripStr l) = true := by
  rcases stripStr_eq_append l with ⟨u, hu⟩
  have h := headOK_dropWhile l
  rw [hu] at h
  exact headOK_append_left _ _ h

/-- Helper: `stripStr` output has a non-whitespace last character. -/
theorem headOK_stripStr_rev (l : Str) : headOK (stripStr l).reverse = true := by
  unfold stripStr
  rw [List.reverse_reverse]
  exact headOK_dropWhile _

/-- Helper: `stripStr` is the identity when neither end is whitespace. -/
theorem stripStr_of_stripped (l : Str) (h1 : headOK l = true) (h2 : headOK l.reverse = true) :
    stripStr l = l := by
  unfold stripStr
  rw [dropWhile_of_headOK l h1, dropWhile_of_headOK _ h2, List.reverse_reverse]

/-- Helper: collapsed normal form survives `stripStr`. -/
theorem collapsedB_stripStr (l : Str) (h : collapsedB l = true) :
    collapsedB (stripStr l) = true := by
  have hm : collapsedB (l.dropWhile isSpaceCh) = true := by
    rcases List.dropWhile_suffix (l := l) isSpaceCh with ⟨u, hu⟩
    rw [← hu] at h
    exact collapsedB_append_right u _ h
  rcases stripStr_eq_append l with ⟨u, hu⟩
  rw [hu] at hm
  exact collapsedB_append_left _ _ hm

/-- Helper: `lowerStr` is idempotent. -/
theorem lowerStr_idem (l : Str) : lowerStr (lowerStr l) = lowerStr l := by
  unfold lowerStr
  rw [List.map_map]
  exact List.map_congr_left (fun a _ => lowerCh_idem a)

/-- Helper: lowercasing commutes with reversing for head inspection. -/
theorem headOK_rev_lowerStr (s : Str) : headOK (lowerStr s).reverse = headOK s.reverse := by
  unfold lowerStr
  rw [← List.map_reverse]
  exact headOK_lowerStr _

/-- Counterexample to C4 as stated: `clean_text` is not idempotent.  On the
input `"&amp;amp;"` one pass produces `"&amp;"` (the entity substitution
consumes the leading `"&amp;"` and the remainder re-forms an entity), and a
second pass produces `"&"`. -/
theorem clean_text_not_idempotent_cex :
    clean_text (clean_text (ofStr "&amp;amp;")) ≠ clean_text (ofStr "&amp;amp;") := by decide

/-- C4 (amended): `clean_text` is idempotent on every input whose output is
a fixed point of the five substitution passes (URL removal, mention
removal, and the three entity substitutions) — equivalently, whose output
contains no residual URL match, mention match, or entity escape.  The
remaining passes (hashtag stripping, whitespace collapsing, stripping,
lowercasing) are always no-ops on `clean_text` output. -/
theorem clean_text_idem_of_fixed (x : Str)
    (hu : urlSub (clean_text x) = clean_text x)
    (hm : mentionSub (clean_text x) = clean_text x)
    (ha : ampSub (clean_text x) = clean_text x)
    (hl : ltSub (clean_text x) = clean_text x)
    (hg : gtSub (clean_text x) = clean_text x) :
    clean_text (clean_text x) = clean_text x := by
  have hhash : hashStrip (clean_text x) = clean_text x := by
    unfold hashStrip
    apply List.filter_eq_self.mpr
    intro a ha2
    have hne : a ≠ 35 := by
      intro h35
      subst h35
      exact hash_not_mem_clean_text x ha2
    simp [hne]
  have hcoll : collapsedB (clean_text x) = true := by
    unfold clean_text
    exact collapsedB_lowerStr _ (collapsedB_stripStr _ (collapsedB_collapse _))
  have hcollapse_y : spaceCollapse (clean_text x) = clean_text x :=
    collapse_of_collapsedB _ hcoll
  have hheadOK : headOK (clean_text x) = true := by
    unfold clean_text
    rw [headOK_lowerStr]
    exact headOK_stripStr _
  have hheadOK_rev : headOK (clean_text x).reverse = true := by
    unfold clean_text
    rw [headOK_rev_lowerStr]
    exact headOK_stripStr_rev _
  have hstrip_y : stripStr (clean_text x) = clean_text x :=
    stripStr_of_stripped _ hheadOK hheadOK_rev
  have hlower_y : lowerStr (clean_text x) = clean_text x := by
    conv =>
      lhs
      rw [clean_text]
    exact lowerStr_idem _
  calc clean_text (clean_text x)
      = lowerStr (stripStr (spaceCollapse (gtSub (ltSub (ampSub (hashStrip
          (mentionSub (urlSub (clean_text x))))))))) := rfl
    _ = clean_text x := by
        rw [hu, hm, hhash, ha, hl, hg, hcollapse_y, hstrip_y, hlower_y]

/-- Witness for C4 (amended): the output of `clean_text` on
`"Hello #World https://x.y @bob"` (namely `"hello world"`) is a fixed point
of all five substitution passes, so a second `clean_text` leaves it
unchanged. -/
theorem clean_text_idem_of_fixed_witness :
    clean_text (clean_text (ofStr "Hello #World https://x.y @bob"))
      = clean_text (ofStr "Hello #World https://x.y @bob") :=
  clean_text_idem_of_fixed (ofStr "Hello #World https://x.y @bob")
    (by decide) (by decide) (by decide) (by decide) (by decide)
